import Mathlib

/-!
# Verification of `node_cleaner.py`

A shallow embedding of the interactive `node_modules` scanner/cleaner:
the size-formatting utilities, the scanner's directory walk, the deletion
helper, the pure input handler, and the `main_loop` state machine
(drain → clamp → render → input → mark/delete), together with proofs of
the behavioural claims made by the design spec.

Conventions of the embedding:
* Filesystem paths are lists of path components (`List String`);
  `os.path.dirname` is `List.dropLast`, `os.path.relpath` is modelled on
  normalized absolute component lists.
* Python `int` values that the UI manipulates (key codes, selection,
  scroll, heights) are Lean `Int`; Python floor division `//` by the
  positive constant 2 agrees with Lean's `Int` division (`Int.ediv`).
* `du -sk` sizes are `Nat` (the program parses a nonnegative count).
* Python's f-string `:.1f` formatting is applied to `size_b / threshold`
  where `threshold` is a power of two and `size_b` an integer, so the
  float value is the exact dyadic rational `size_b / threshold`; we model
  the one-decimal rendering by exact rational rounding (ties to even,
  as CPython's float formatting does on the exact value).
* The filesystem effects of `shutil.rmtree` / `os.path.exists` are
  supplied as oracles: `delete_entry` takes the existence answer and the
  `rmtree` outcome (`none` = success, `some msg` = raised error message).
-/

/-- `curses.KEY_UP` -/
def KEY_UP : Int := 259
/-- `curses.KEY_DOWN` -/
def KEY_DOWN : Int := 258
/-- `curses.KEY_PPAGE` -/
def KEY_PPAGE : Int := 339
/-- `curses.KEY_NPAGE` -/
def KEY_NPAGE : Int := 338

/-- Round `num / den` to the nearest integer, ties to even — the rounding
CPython's `:.1f` applies to the (here exact) float value. -/
def round_half_even (num den : Nat) : Nat :=
  let q := num / den
  let r := num % den
  if 2 * r < den then q
  else if den < 2 * r then q + 1
  else if q % 2 = 0 then q else q + 1

/-- One-decimal-place rendering `f"{size_b / threshold:.1f} {unit}"` for a
power-of-two `threshold`: the float quotient is exact, so the printed
digits come from rounding `size_b * 10 / threshold` half-to-even. -/
def fmt1 (size_b threshold : Nat) (unit : String) : String :=
  let scaled := round_half_even (size_b * 10) threshold
  toString (scaled / 10) ++ "." ++ toString (scaled % 10) ++ " " ++ unit

/-- The threshold table `[("GB", 1 << 30), ("MB", 1 << 20), ("KB", 1 << 10)]`. -/
def size_thresholds : List (String × Nat) :=
  [("GB", 1 <<< 30), ("MB", 1 <<< 20), ("KB", 1 <<< 10)]

/-- `format_size`: convert kilobytes to a human-readable string. -/
def format_size (size_kb : Nat) : String :=
  if size_kb = 0 then "0 B"
  else
    let size_b := size_kb * 1024
    match size_thresholds.find? (fun p => size_b ≥ p.2) with
    | some (unit, threshold) => fmt1 size_b threshold unit
    | none => toString size_b ++ " B"

/-- The dataclass `NodeModulesEntry`.  Paths are component lists; `size_human`
is the derived label, `status` the free-text state, `deleted`/`marked` the
lifecycle flags. -/
structure NodeModulesEntry where
  abs_path : List String
  rel_path : List String
  size_kb : Nat
  size_human : String
  status : String
  deleted : Bool
  marked : Bool
deriving DecidableEq, Repr

/-- Construction of a `NodeModulesEntry` with the dataclass defaults
(`status = "Active"` etc.) followed by `__post_init__`, which fills the
(empty-by-default) `size_human` with `format_size size_kb`. -/
def mkEntry (abs rel : List String) (size : Nat) : NodeModulesEntry :=
  { abs_path := abs, rel_path := rel, size_kb := size,
    size_human := format_size size,
    status := "Active", deleted := false, marked := false }

/-- `delete_entry`, with the filesystem supplied as oracles:
`path_exists` is `os.path.exists(entry.abs_path)` and `rmtree_result` the
outcome of `shutil.rmtree` (`none` = returned normally, `some msg` = raised
an exception whose `str` is `msg`).  Returns an error string on failure,
`none` on success — exactly the source's `Optional[str]`. -/
def delete_entry (path_exists : Bool) (rmtree_result : Option String) : Option String :=
  if !path_exists then some "Already gone"
  else rmtree_result

/-! ## Scanner: the directory walk -/

/-- A directory tree: name and subdirectories (plain files are irrelevant to
the walk, which only inspects `dirnames`). -/
inductive FSTree where
  | dir (name : String) (children : List FSTree)

/-- The name of a directory node. -/
def FSTree.name : FSTree → String
  | .dir n _ => n

/-- Well-formedness of an enumerated filesystem tree: sibling directory
names are distinct at every level (true of any real directory listing,
which `os.walk` reports). -/
def FSTree.wfb : FSTree → Bool
  | .dir _ children =>
    decide ((children.map FSTree.name).Nodup) &&
      children.attach.all (fun c => FSTree.wfb c.1)
termination_by t => sizeOf t
decreasing_by
  simp_wf
  have := List.sizeOf_lt_of_mem c.2
  omega

/-- `find_node_modules`' walk: `os.walk(root, topdown=True)` visits `path`
first; if `"node_modules" in dirnames` the walk appends
`os.path.join(dirpath, "node_modules")` to `paths` and executes
`dirnames.remove("node_modules")` (removal of the first matching entry,
modelled by `List.eraseP`, which is the identity when no child matches —
the source only calls `remove` when a match exists), then recurses into the
remaining children in order.  The result is the list `paths` of discovered
target directories in walk order. -/
def find_node_modules : List String → FSTree → List (List String)
  | path, .dir _ children =>
    let found := children.any (fun c => c.name == "node_modules")
    let remaining := children.eraseP (fun c => c.name == "node_modules")
    (if found then [path ++ ["node_modules"]] else []) ++
      remaining.attach.flatMap (fun c => find_node_modules (path ++ [c.1.name]) c.1)
termination_by _ t => sizeOf t
decreasing_by
  simp_wf
  have h1 : c.1 ∈ remaining := c.2
  have h2 : c.1 ∈ children := (List.eraseP_sublist children).mem h1
  have := List.sizeOf_lt_of_mem h2
  omega

/-- `os.path.dirname` on a component list. -/
def dirname (p : List String) : List String := p.dropLast

/-- `os.path.relpath(path, start)` on normalized absolute component lists:
strip the common prefix, climb with `".."` for what remains of `start`,
and return `"."` when the paths coincide. -/
def commonPrefixLen : List String → List String → Nat
  | a :: as, b :: bs => if a = b then 1 + commonPrefixLen as bs else 0
  | _, _ => 0

/-- See `commonPrefixLen`. -/
def relpath (path start : List String) : List String :=
  let k := commonPrefixLen path start
  let ups := List.replicate (start.length - k) ".."
  let rest := path.drop k
  if ups ++ rest = [] then ["."] else ups ++ rest

/-- `measure_and_enqueue`: builds the record for one discovered target —
the displayed path is `os.path.relpath(os.path.dirname(abs_path), root)`,
the size is whatever `measure_size` (the `du -sk` probe) returned. -/
def measure_and_enqueue (root abs_path : List String) (size_kb : Nat) : NodeModulesEntry :=
  mkEntry abs_path (relpath (dirname abs_path) root) size_kb

/-! ## Input handling -/

/-- The result quintuple of `handle_input`. -/
structure InputResult where
  selected : Int
  scroll : Int
  quit_flag : Bool
  delete_flag : Bool
  mark_flag : Bool
deriving DecidableEq, Repr

/-- `SCROLLOFF = 3`. -/
def SCROLLOFF : Int := 3

/-- The tail of `handle_input`: the vim-like scroll-off renormalisation,
executed for *every* key.  `so = min(SCROLLOFF, table_rows // 2)`; pull the
window up when fewer than `so` rows of context remain above the cursor,
push it down when fewer than `so` remain below, then floor at 0. -/
def normScroll (selected scroll table_rows : Int) : Int :=
  let so := min SCROLLOFF (table_rows / 2)
  let scroll₁ := if selected - scroll < so then max 0 (selected - so) else scroll
  let scroll₂ :=
    if selected ≥ scroll₁ + table_rows - so then selected - table_rows + so + 1 else scroll₁
  max 0 scroll₂

/-- `handle_input`: the pure navigation controller.  Key codes are the
`curses` constants and `ord` values from the source (`ord "k" = 107`,
`ord "j" = 106`, `ord "g" = 103`, `ord "G" = 71`, `ord "Q" = 81`,
`ord "q" = 113`, `Esc = 27`, `ord "D" = 68`, `ord " " = 32`).  Python's
floor division `table_rows // 2` agrees with Lean's `Int` division here
because the divisor is the positive literal 2. -/
def handle_input (key : Int) (selected₀ scroll₀ : Int)
    (entries : List NodeModulesEntry) (height : Int) : InputResult :=
  let table_rows := height - 5
  let n : Int := entries.length
  let step :=
    if key = KEY_UP ∨ key = 107 then
      (max 0 (selected₀ - 1), false, false, false)
    else if key = KEY_DOWN ∨ key = 106 then
      (min (max 0 (n - 1)) (selected₀ + 1), false, false, false)
    else if key = KEY_PPAGE then
      (max 0 (selected₀ - table_rows), false, false, false)
    else if key = KEY_NPAGE then
      (min (max 0 (n - 1)) (selected₀ + table_rows), false, false, false)
    else if key = 103 then
      (0, false, false, false)
    else if key = 71 then
      (max 0 (n - 1), false, false, false)
    else if key = 81 ∨ key = 113 ∨ key = 27 then
      (selected₀, true, false, false)
    else if key = 68 then
      (selected₀, false, true, false)
    else if key = 32 then
      (selected₀, false, false, true)
    else
      (selected₀, false, false, false)
  let selected := step.1
  ⟨selected, normScroll selected scroll₀ table_rows, step.2.1, step.2.2.1, step.2.2.2⟩

/-! ## The main loop as a state machine -/

/-- The mutable state `main_loop` owns: the entry list and the cursor. -/
structure UIState where
  entries : List NodeModulesEntry
  selected : Int
  scroll : Int
deriving Repr

/-- One iteration of `main_loop`'s `while True` cycle, externally
determined by: the records drained from the scanner queue this cycle
(as `(abs_path, rel_path, size_kb)` triples turned into entries by
`measure_and_enqueue`'s constructor), the terminal height, the polled key
(`none` when `getch` returns `-1` or raises), the confirmation key read
in the modal dialog (used only if the delete branch fires), and the
per-entry-index outcome of `delete_entry` (`none` = success). -/
structure LoopCycle where
  drained : List (List String × List String × Nat)
  height : Int
  key : Option Int
  confirm_key : Int
  delRes : Nat → Option String

/-- Queue drain: `entries.append(item)` for each drained record. -/
def drainStep (s : UIState) (drained : List (List String × List String × Nat)) : UIState :=
  { s with entries := s.entries ++ drained.map (fun d => mkEntry d.1 d.2.1 d.2.2) }

/-- The per-cycle clamp before rendering: when the entry list is nonempty,
`selected = min(selected, max(0, n - 1))` and
`scroll = min(scroll, max(0, n - table_rows))` with `table_rows = h - 5`. -/
def clampStep (s : UIState) (height : Int) : UIState :=
  if s.entries.isEmpty then s
  else
    let n : Int := s.entries.length
    let table_rows := height - 5
    { s with selected := min s.selected (max 0 (n - 1)),
             scroll := min s.scroll (max 0 (n - table_rows)) }

/-- Python list indexing `entries[i]` for an `int` index: a negative index
counts from the end.  (An index that is still out of range raises
`IndexError` in the source, aborting the session; the callers below treat
that case as a no-op instead, which only adds states to the reachable set
— every mutation the source can perform is still represented.) -/
def pyIdx (n : Nat) (i : Int) : Nat :=
  (if i < 0 then i + n else i).toNat

/-- The mark branch: toggle `marked` on the current entry if it is not
deleted, then advance the cursor one row (when possible), re-applying the
lower scroll-off rule and the `scroll = max(0, scroll)` floor. -/
def markStep (s : UIState) (height : Int) : UIState :=
  let i := pyIdx s.entries.length s.selected
  let entries := s.entries.mapIdx (fun j e =>
    if j = i ∧ e.deleted = false then { e with marked := !e.marked } else e)
  if s.selected < (entries.length : Int) - 1 then
    let selected := s.selected + 1
    let table_rows := height - 5
    let so := min SCROLLOFF (table_rows / 2)
    let scroll :=
      if selected ≥ s.scroll + table_rows - so then selected - table_rows + so + 1
      else s.scroll
    { entries := entries, selected := selected, scroll := max 0 scroll }
  else { s with entries := entries }

/-- The delete target set, as entry indices (the source collects the entry
objects themselves; indices are the same thing for a list of distinct
objects): all marked-and-not-deleted entries, else the entry under the
cursor when it is not deleted, else empty. -/
def targetIdxs (entries : List NodeModulesEntry) (selected : Nat) : List Nat :=
  let marked := (List.range entries.length).filter (fun i =>
    match entries.get? i with
    | some e => e.marked && !e.deleted
    | none => false)
  if marked.isEmpty then
    match entries.get? selected with
    | some cur => if cur.deleted = false then [selected] else []
    | none => []
  else marked

/-- The delete branch of `main_loop` (entered when `delete_flag` is set and
the entry list is nonempty): compute the targets; `continue` if empty;
otherwise read `confirm_key` in the modal dialog and only on `Y`/`y`
(89/121) run the two phases — first set every target to
`status = "Deleting...", marked = False`, then for each target apply
`delete_entry`'s outcome: on an error string `status = "Err: " + error[:8]`,
on success `deleted = True`, `status = "Deleted"`, `size_kb = 0`,
`size_human = "—"`. -/
def deleteStep (entries : List NodeModulesEntry) (selected : Nat) (confirm_key : Int)
    (delRes : Nat → Option String) : List NodeModulesEntry :=
  let targets := targetIdxs entries selected
  if targets.isEmpty then entries
  else if confirm_key = 89 ∨ confirm_key = 121 then
    let entries₁ := entries.mapIdx (fun i e =>
      if i ∈ targets then { e with status := "Deleting...", marked := false } else e)
    entries₁.mapIdx (fun i e =>
      if i ∈ targets then
        match delRes i with
        | some err => { e with status := "Err: " ++ err.take 8 }
        | none => { e with deleted := true, status := "Deleted",
                           size_kb := 0, size_human := "—" }
      else e)
  else entries

/-- One full cycle of `main_loop`: drain, clamp (the state that is then
rendered), poll input, apply `handle_input`, then the mark and delete
branches.  A quit intent breaks the loop; we freeze the state there. -/
def afterInput (s₂ : UIState) (r : InputResult) (c : LoopCycle) : UIState :=
  let s₃ : UIState := { s₂ with selected := r.selected, scroll := r.scroll }
  if r.quit_flag then s₃
  else
    let s₄ := if r.mark_flag ∧ s₃.entries ≠ [] then markStep s₃ c.height else s₃
    if r.delete_flag ∧ s₄.entries ≠ [] then
      { s₄ with entries :=
          deleteStep s₄.entries (pyIdx s₄.entries.length s₄.selected) c.confirm_key c.delRes }
    else s₄

/-- See `afterInput`: the part of the cycle that runs once a key was read —
apply `handle_input`, stop on quit, else the mark branch then the delete
branch. -/
def cycleStep (s : UIState) (c : LoopCycle) : UIState :=
  let s₂ := clampStep (drainStep s c.drained) c.height
  match c.key with
  | none => s₂
  | some k => afterInput s₂ (handle_input k s₂.selected s₂.scroll s₂.entries c.height) c

/-- The state reached from `main_loop`'s initialisation
(`entries = []`, `selected = 0`, `scroll = 0`) after a sequence of cycles. -/
def reach (cs : List LoopCycle) : UIState :=
  cs.foldl cycleStep ⟨[], 0, 0⟩

/-- The cursor bounds `main_loop` maintains between cycles: the selection
is in `[0, max(0, count-1)]` and the scroll offset is nonnegative. -/
def cursorInv (s : UIState) : Prop :=
  0 ≤ s.selected ∧ s.selected ≤ max 0 ((s.entries.length : Int) - 1) ∧ 0 ≤ s.scroll

/-- The per-record invariants: `marked` is never true on a deleted record,
and a not-yet-deleted record with `size_kb = 0` carries the label `"0 B"`. -/
def entryInv (e : NodeModulesEntry) : Prop :=
  (e.marked = true → e.deleted = false) ∧
  (e.deleted = false → e.size_kb = 0 → e.size_human = "0 B")

/-- From the spec's words, for comparison with `format_size`: "the largest
unit (GB/MB/KB) for which the byte value meets its threshold". -/
def spec_largest_unit (size_b : Nat) : String × Nat :=
  if 1 <<< 30 ≤ size_b then ("GB", 1 <<< 30)
  else if 1 <<< 20 ≤ size_b then ("MB", 1 <<< 20)
  else ("KB", 1 <<< 10)

/-! ## Concrete inputs used by counterexamples and witnesses -/

/-- A record as the scanner would produce it for `/r/a/node_modules`. -/
def entryA : NodeModulesEntry := mkEntry ["r", "a", "node_modules"] ["a"] 5

/-- One cycle: one record drained, `D` pressed, deletion confirmed with `Y`,
and `delete_entry` succeeding (`rmtree` returned normally). -/
def cycDelOk : LoopCycle :=
  { drained := [(["r", "a", "node_modules"], ["a"], 5)], height := 30,
    key := some 68, confirm_key := 89, delRes := fun _ => none }

/-- One cycle: one record drained, `D` pressed, deletion confirmed with `Y`,
but the target path no longer exists, so `delete_entry` returns
`"Already gone"`. -/
def cycDelGone : LoopCycle :=
  { drained := [(["r", "a", "node_modules"], ["a"], 5)], height := 30,
    key := some 68, confirm_key := 89, delRes := fun _ => delete_entry false none }

/-- One cycle on a 4-row terminal (`table_rows = -1`): one record drained
and PageDown pressed. -/
def cycTiny : LoopCycle :=
  { drained := [(["r", "a", "node_modules"], ["a"], 5)], height := 4,
    key := some KEY_NPAGE, confirm_key := 0, delRes := fun _ => none }

/-- One cycle that drains a single record whose measured size is 0 (the
probe's failure value), with no key pressed. -/
def cycZero : LoopCycle :=
  { drained := [(["r", "a", "node_modules"], ["a"], 0)], height := 30,
    key := none, confirm_key := 0, delRes := fun _ => none }

/-- A small directory tree: `root/a/node_modules/x/node_modules` (a target
nested inside a target) and `root/b/node_modules`. -/
def exTree : FSTree :=
  .dir "root" [.dir "a" [.dir "node_modules" [.dir "x" [.dir "node_modules" []]]],
               .dir "b" [.dir "node_modules" []]]

/-! ## Size formatting lemmas -/

lemma fmt1_ne_zeroB (b t : Nat) (u : String) : fmt1 b t u ≠ "0 B" := by
  intro h
  have hd : '.' ∈ (fmt1 b t u).data := by
    have h1 : '.' ∈ (("." : String)).data := by decide
    simp only [fmt1, String.data_append, List.mem_append]
    tauto
  rw [h] at hd
  exact absurd hd (by decide)

lemma fmt1_shape (b t : Nat) (u : String) :
    ∃ n d : Nat, d < 10 ∧ fmt1 b t u = toString n ++ "." ++ toString d ++ " " ++ u := by
  refine ⟨round_half_even (b * 10) t / 10, round_half_even (b * 10) t % 10, ?_, rfl⟩
  omega

lemma format_size_pos_eq (k : Nat) (hk : k ≠ 0) :
    format_size k =
      fmt1 (k * 1024) (spec_largest_unit (k * 1024)).2 (spec_largest_unit (k * 1024)).1 ∧
    size_thresholds.find? (fun p => k * 1024 ≥ p.2) = some (spec_largest_unit (k * 1024)) := by
  have h1 : 1 ≤ k := Nat.one_le_iff_ne_zero.mpr hk
  by_cases h30 : 1073741824 ≤ k * 1024
  · simp [format_size, size_thresholds, spec_largest_unit, hk, h30, List.find?]
  · by_cases h20 : 1048576 ≤ k * 1024
    · simp [format_size, size_thresholds, spec_largest_unit, hk, h30, h20, List.find?]
    · simp [format_size, size_thresholds, spec_largest_unit, hk, h30, h20, h1, List.find?]

/-- C6: `format_size` returns `"0 B"` exactly for input 0; every nonzero
input is rendered with one decimal place and the largest of GB/MB/KB whose
byte threshold the value meets; the three sample values render as the spec
says. -/
theorem C6_format_size_zero_and_units :
    format_size 0 = "0 B" ∧
    (∀ k : Nat, k ≠ 0 →
      format_size k ≠ "0 B" ∧
      ∃ n d : Nat, d < 10 ∧
        format_size k = toString n ++ "." ++ toString d ++ " " ++ (spec_largest_unit (k * 1024)).1) ∧
    format_size 100 = "100.0 KB" ∧
    format_size 2048 = "2.0 MB" ∧
    format_size 3145728 = "3.0 GB" := by
  refine ⟨by decide, ?_, by decide, by decide, by decide⟩
  intro k hk
  obtain ⟨he, -⟩ := format_size_pos_eq k hk
  constructor
  · rw [he]; exact fmt1_ne_zeroB _ _ _
  · rw [he]; exact fmt1_shape _ _ _

/-- Witness for `C6_format_size_zero_and_units` at `k = 2048`. -/
theorem C6_format_size_zero_and_units_witness : format_size 2048 ≠ "0 B" :=
  (C6_format_size_zero_and_units.2.1 2048 (by decide)).1

/-- C10: for every `size_kb ≥ 1` the byte value meets the KB threshold, so
the threshold search succeeds with one of GB/MB/KB and `format_size`
returns the `fmt1` rendering — the trailing raw-bytes branch is never
taken. -/
theorem C10_raw_bytes_branch_unreachable :
    ∀ k : Nat, 1 ≤ k →
      (1 : Nat) <<< 10 ≤ k * 1024 ∧
      ∃ unit thr, (unit, thr) ∈ size_thresholds ∧
        size_thresholds.find? (fun p => k * 1024 ≥ p.2) = some (unit, thr) ∧
        format_size k = fmt1 (k * 1024) thr unit := by
  intro k hk
  have hk0 : k ≠ 0 := by omega
  obtain ⟨he, hf⟩ := format_size_pos_eq k hk0
  refine ⟨by simp [Nat.one_shiftLeft]; omega, (spec_largest_unit (k * 1024)).1,
    (spec_largest_unit (k * 1024)).2, ?_, by simpa using hf, by simpa using he⟩
  unfold spec_largest_unit size_thresholds
  split_ifs <;> simp

/-- Witness for `C10_raw_bytes_branch_unreachable` at `k = 1`. -/
theorem C10_raw_bytes_branch_unreachable_witness :
    (1 : Nat) <<< 10 ≤ 1 * 1024 :=
  (C10_raw_bytes_branch_unreachable 1 (by decide)).1

/-- C1 (code bug): when the target path no longer exists, `delete_entry`
returns the string `"Already gone"`, and `main_loop`'s delete workflow
treats any returned string as a failure: the record ends with the error
status `"Err: Already "` and `deleted = False` — not the benign success
the spec describes. -/
theorem C1_already_gone_is_treated_as_error :
    delete_entry false none = some "Already gone" ∧
    (reach [cycDelGone]).entries.map (fun e => (e.status, e.deleted, e.marked)) =
      [("Err: Already ", false, false)] := by
  constructor
  · rfl
  · decide

/-- C2 counterexample: after a confirmed successful deletion the reachable
record has `size_kb = 0` but `size_human = "—"`, not `"0 B"`. -/
theorem C2_counterexample_deleted_label :
    (reach [cycDelOk]).entries.map (fun e => (e.size_kb, e.size_human)) = [(0, "—")] ∧
    ("—" : String) ≠ "0 B" := by
  constructor
  · decide
  · decide

/-- C3 counterexample: the unrecognized key `120` (`ord "x"`) leaves the
selection and intents alone but *changes* the scroll offset (the scroll-off
renormalisation at the end of `handle_input` runs for every key). -/
theorem C3_counterexample_scroll_changes :
    (120 : Int) ∉ ([KEY_UP, 107, KEY_DOWN, 106, KEY_PPAGE, KEY_NPAGE,
        103, 71, 81, 113, 27, 68, 32] : List Int) ∧
    (handle_input 120 0 5 (List.replicate 20 entryA) 30).delete_flag = false ∧
    (handle_input 120 0 5 (List.replicate 20 entryA) 30).mark_flag = false ∧
    (handle_input 120 0 5 (List.replicate 20 entryA) 30).scroll ≠ 5 := by
  refine ⟨by decide, by decide, by decide, by decide⟩

lemma normScroll_nonneg (a b c : Int) : 0 ≤ normScroll a b c := by
  unfold normScroll
  exact le_max_left 0 _

lemma normScroll_fixed (sel scr tr : Int) (h0 : 0 ≤ scr)
    (h1 : ¬(sel - scr < min SCROLLOFF (tr / 2)))
    (h2 : sel < scr + tr - min SCROLLOFF (tr / 2)) :
    normScroll sel scr tr = scr := by
  simp only [normScroll]
  rw [if_neg h1, if_neg (show ¬(sel ≥ scr + tr - min SCROLLOFF (tr / 2)) by omega)]
  omega

lemma handle_input_selected_eq (key sel scr : Int) (entries : List NodeModulesEntry) (h : Int) :
    (handle_input key sel scr entries h).selected =
      (if key = KEY_UP ∨ key = 107 then max 0 (sel - 1)
       else if key = KEY_DOWN ∨ key = 106 then min (max 0 ((entries.length : Int) - 1)) (sel + 1)
       else if key = KEY_PPAGE then max 0 (sel - (h - 5))
       else if key = KEY_NPAGE then min (max 0 ((entries.length : Int) - 1)) (sel + (h - 5))
       else if key = 103 then 0
       else if key = 71 then max 0 ((entries.length : Int) - 1)
       else sel) := by
  unfold handle_input
  split_ifs <;> rfl

lemma handle_input_scroll_eq (key sel scr : Int) (entries : List NodeModulesEntry) (h : Int) :
    (handle_input key sel scr entries h).scroll =
      normScroll (handle_input key sel scr entries h).selected scr (h - 5) := by
  unfold handle_input
  split_ifs <;> rfl

lemma handle_input_selected_bounds (key sel scr : Int) (entries : List NodeModulesEntry) (h : Int)
    (hh : 5 ≤ h) (h0 : 0 ≤ sel) (h1 : sel ≤ max 0 ((entries.length : Int) - 1)) :
    0 ≤ (handle_input key sel scr entries h).selected ∧
    (handle_input key sel scr entries h).selected ≤ max 0 ((entries.length : Int) - 1) := by
  rw [handle_input_selected_eq]
  by_cases c1 : key = KEY_UP ∨ key = 107 <;>
    by_cases c2 : key = KEY_DOWN ∨ key = 106 <;>
    by_cases c3 : key = KEY_PPAGE <;>
    by_cases c4 : key = KEY_NPAGE <;>
    by_cases c5 : key = 103 <;>
    by_cases c6 : key = 71 <;>
    simp only [c1, c2, c3, c4, c5, c6, if_true, if_false, ite_true, ite_false] <;>
    constructor <;> omega

lemma handle_input_scroll_nonneg (key sel scr : Int) (entries : List NodeModulesEntry) (h : Int) :
    0 ≤ (handle_input key sel scr entries h).scroll := by
  rw [handle_input_scroll_eq]
  exact normScroll_nonneg _ _ _

lemma handle_input_unrecognized (key sel scr : Int) (entries : List NodeModulesEntry) (h : Int)
    (hkey : key ∉ ([KEY_UP, 107, KEY_DOWN, 106, KEY_PPAGE, KEY_NPAGE,
        103, 71, 81, 113, 27, 68, 32] : List Int)) :
    handle_input key sel scr entries h = ⟨sel, normScroll sel scr (h - 5), false, false, false⟩ := by
  simp only [List.mem_cons, List.not_mem_nil, or_false, not_or] at hkey
  obtain ⟨n1, n2, n3, n4, n5, n6, n7, n8, n9, n10, n11, n12, n13⟩ := hkey
  unfold handle_input
  simp [n1, n2, n3, n4, n5, n6, n7, n8, n9, n10, n11, n12, n13]

lemma handle_input_delete_key (sel scr : Int) (entries : List NodeModulesEntry) (h : Int) :
    handle_input 68 sel scr entries h = ⟨sel, normScroll sel scr (h - 5), false, true, false⟩ := by
  unfold handle_input
  norm_num [KEY_UP, KEY_DOWN, KEY_PPAGE, KEY_NPAGE]

lemma handle_input_mark_key (sel scr : Int) (entries : List NodeModulesEntry) (h : Int) :
    handle_input 32 sel scr entries h = ⟨sel, normScroll sel scr (h - 5), false, false, true⟩ := by
  unfold handle_input
  norm_num [KEY_UP, KEY_DOWN, KEY_PPAGE, KEY_NPAGE]

lemma drainStep_cursorInv (s : UIState) (d : List (List String × List String × Nat))
    (hs : cursorInv s) : cursorInv (drainStep s d) := by
  obtain ⟨a, b, c⟩ := hs
  refine ⟨a, ?_, c⟩
  simp only [drainStep, List.length_append, List.length_map]
  push_cast
  omega

lemma clampStep_entries (s : UIState) (h : Int) : (clampStep s h).entries = s.entries := by
  unfold clampStep
  split_ifs <;> rfl

lemma clampStep_cursorInv (s : UIState) (h : Int) (hs : cursorInv s) :
    cursorInv (clampStep s h) := by
  obtain ⟨a, b, c⟩ := hs
  unfold clampStep cursorInv
  split_ifs with he
  · exact ⟨a, b, c⟩
  · refine ⟨?_, ?_, ?_⟩ <;> simp only [] <;> omega

lemma clampStep_scroll_le (s : UIState) (h : Int) (hs : cursorInv s)
    (hne : s.entries ≠ []) :
    (clampStep s h).scroll ≤ max 0 (((clampStep s h).entries.length : Int) - (h - 5)) := by
  obtain ⟨a, b, c⟩ := hs
  unfold clampStep
  rw [if_neg (by simpa [List.isEmpty_iff] using hne)]
  simp only []
  omega

lemma deleteStep_length (entries : List NodeModulesEntry) (sel : Nat) (ck : Int)
    (res : Nat → Option String) :
    (deleteStep entries sel ck res).length = entries.length := by
  simp only [deleteStep]
  split_ifs <;> simp [List.length_mapIdx]

lemma markStep_entries_length (s : UIState) (h : Int) :
    (markStep s h).entries.length = s.entries.length := by
  simp only [markStep]
  split_ifs <;> simp [List.length_mapIdx]

lemma markStep_selected (s : UIState) (h : Int) :
    (markStep s h).selected =
      if s.selected < (s.entries.length : Int) - 1 then s.selected + 1 else s.selected := by
  simp only [markStep, List.length_mapIdx]
  split_ifs <;> rfl

lemma markStep_scroll (s : UIState) (h : Int) :
    (markStep s h).scroll =
      if s.selected < (s.entries.length : Int) - 1 then
        max 0 (if s.selected + 1 ≥ s.scroll + (h - 5) - min SCROLLOFF ((h - 5) / 2)
               then s.selected + 1 - (h - 5) + min SCROLLOFF ((h - 5) / 2) + 1 else s.scroll)
      else s.scroll := by
  simp only [markStep, List.length_mapIdx]
  split_ifs <;> rfl

lemma markStep_cursorInv (s : UIState) (h : Int) (hs : cursorInv s) :
    cursorInv (markStep s h) := by
  obtain ⟨a, b, c⟩ := hs
  unfold cursorInv
  rw [markStep_selected, markStep_scroll, markStep_entries_length]
  split_ifs <;> refine ⟨by omega, by omega, by omega⟩

lemma afterInput_cursorInv (s₂ : UIState) (r : InputResult) (c : LoopCycle)
    (h : cursorInv { s₂ with selected := r.selected, scroll := r.scroll }) :
    cursorInv (afterInput s₂ r c) := by
  simp only [afterInput]
  split_ifs with hq hm hd hd <;> (try dsimp only)
  · exact h
  · obtain ⟨a, b, c'⟩ := markStep_cursorInv _ c.height h
    refine ⟨a, ?_, c'⟩
    rw [deleteStep_length]
    exact b
  · exact markStep_cursorInv _ c.height h
  · obtain ⟨a, b, c'⟩ := h
    refine ⟨a, ?_, c'⟩
    rw [deleteStep_length]
    exact b
  · exact h

lemma cycleStep_cursorInv (s : UIState) (c : LoopCycle) (hh : 5 ≤ c.height)
    (hs : cursorInv s) : cursorInv (cycleStep s c) := by
  have h2 : cursorInv (clampStep (drainStep s c.drained) c.height) :=
    clampStep_cursorInv _ _ (drainStep_cursorInv _ _ hs)
  unfold cycleStep
  cases c.key with
  | none => exact h2
  | some k =>
    apply afterInput_cursorInv
    obtain ⟨a2, b2, c2⟩ := h2
    refine ⟨?_, ?_, ?_⟩
    · exact (handle_input_selected_bounds k _
        (clampStep (drainStep s c.drained) c.height).scroll _ c.height hh a2 b2).1
    · exact (handle_input_selected_bounds k _
        (clampStep (drainStep s c.drained) c.height).scroll _ c.height hh a2 b2).2
    · exact handle_input_scroll_nonneg k _ _ _ c.height

lemma reach_cursorInv (cs : List LoopCycle) (hcs : ∀ c ∈ cs, 5 ≤ c.height) :
    cursorInv (reach cs) := by
  suffices H : ∀ (cs : List LoopCycle) (s : UIState), (∀ c ∈ cs, 5 ≤ c.height) →
      cursorInv s → cursorInv (cs.foldl cycleStep s) by
    exact H cs ⟨[], 0, 0⟩ hcs ⟨le_refl 0, by simp, le_refl 0⟩
  intro cs
  induction cs with
  | nil => intro s _ hs; exact hs
  | cons c cs ih =>
    intro s hcs hs
    exact ih (cycleStep s c) (fun x hx => hcs x (List.mem_cons_of_mem _ hx))
      (cycleStep_cursorInv s c (hcs c (List.mem_cons_self _ _)) hs)

/-- C4 counterexample: on a 4-row terminal (`table_rows = height - 5 = -1`)
a single PageDown drives the selection to `-1`; the per-cycle clamp only
caps from above, so the claimed bounds fail as stated. -/
theorem C4_counterexample_negative_selection :
    (reach [cycTiny]).selected = -1 ∧ ¬ cursorInv (reach [cycTiny]) := by
  constructor
  · decide
  · unfold cursorInv
    decide

/-- C4 (amended): provided every cycle's terminal height is at least 5
(the layout's two header rows plus three footer rows, so `table_rows ≥ 0`),
the selection stays in `[0, max(0, count-1)]` and the scroll offset stays
nonnegative across any sequence of inputs and record appends, and at the
render point of the next cycle the scroll is also clamped to
`max(0, count - table_rows)`, so the table never scrolls past content. -/
theorem C4_bounds_under_min_height :
    ∀ (cs : List LoopCycle) (c : LoopCycle), (∀ c' ∈ cs, 5 ≤ c'.height) →
      cursorInv (reach cs) ∧
      cursorInv (clampStep (drainStep (reach cs) c.drained) c.height) ∧
      ((clampStep (drainStep (reach cs) c.drained) c.height).entries ≠ [] →
        (clampStep (drainStep (reach cs) c.drained) c.height).scroll ≤
          max 0 (((clampStep (drainStep (reach cs) c.drained) c.height).entries.length : Int)
            - (c.height - 5))) := by
  intro cs c hcs
  have h1 := reach_cursorInv cs hcs
  have h2 := drainStep_cursorInv _ c.drained h1
  refine ⟨h1, clampStep_cursorInv _ _ h2, ?_⟩
  intro hne
  rw [clampStep_entries] at hne
  exact clampStep_scroll_le _ _ h2 hne

/-- Witness for `C4_bounds_under_min_height` on a concrete cycle. -/
theorem C4_bounds_witness :
    (clampStep (drainStep (reach []) cycDelOk.drained) cycDelOk.height).scroll ≤
      max 0 (((clampStep (drainStep (reach []) cycDelOk.drained) cycDelOk.height).entries.length : Int)
        - (cycDelOk.height - 5)) :=
  (C4_bounds_under_min_height [] cycDelOk (by simp)).2.2 (by decide)

/-- C3 (amended): an unrecognized key leaves the selection unchanged with
all three intents false, and the delete/mark keys set exactly their intent
with the selection unchanged; the scroll offset is unchanged *provided* it
already satisfies the scroll-off constraints for the current selection and
height — otherwise it is renormalised by the scroll-off rule, which runs
for every key. -/
theorem C3_amended_intents_and_scrolloff (key sel scr : Int)
    (entries : List NodeModulesEntry) (h : Int) :
    (key ∉ ([KEY_UP, 107, KEY_DOWN, 106, KEY_PPAGE, KEY_NPAGE,
        103, 71, 81, 113, 27, 68, 32] : List Int) →
      (handle_input key sel scr entries h).selected = sel ∧
      (handle_input key sel scr entries h).quit_flag = false ∧
      (handle_input key sel scr entries h).delete_flag = false ∧
      (handle_input key sel scr entries h).mark_flag = false) ∧
    ((handle_input 68 sel scr entries h).selected = sel ∧
      (handle_input 68 sel scr entries h).delete_flag = true ∧
      (handle_input 68 sel scr entries h).quit_flag = false ∧
      (handle_input 68 sel scr entries h).mark_flag = false) ∧
    ((handle_input 32 sel scr entries h).selected = sel ∧
      (handle_input 32 sel scr entries h).mark_flag = true ∧
      (handle_input 32 sel scr entries h).quit_flag = false ∧
      (handle_input 32 sel scr entries h).delete_flag = false) ∧
    (0 ≤ scr → ¬(sel - scr < min SCROLLOFF ((h - 5) / 2)) →
      sel < scr + (h - 5) - min SCROLLOFF ((h - 5) / 2) →
      (key ∉ ([KEY_UP, 107, KEY_DOWN, 106, KEY_PPAGE, KEY_NPAGE,
          103, 71, 81, 113, 27, 68, 32] : List Int) ∨ key = 68 ∨ key = 32) →
      (handle_input key sel scr entries h).scroll = scr) := by
  refine ⟨?_, ?_, ?_, ?_⟩
  · intro hkey
    rw [handle_input_unrecognized key sel scr entries h hkey]
    exact ⟨rfl, rfl, rfl, rfl⟩
  · rw [handle_input_delete_key sel scr entries h]
    exact ⟨rfl, rfl, rfl, rfl⟩
  · rw [handle_input_mark_key sel scr entries h]
    exact ⟨rfl, rfl, rfl, rfl⟩
  · intro h0 h1 h2 hk
    rcases hk with hk | hk | hk
    · rw [handle_input_unrecognized key sel scr entries h hk]
      exact normScroll_fixed sel scr (h - 5) h0 h1 h2
    · subst hk
      rw [handle_input_delete_key sel scr entries h]
      exact normScroll_fixed sel scr (h - 5) h0 h1 h2
    · subst hk
      rw [handle_input_mark_key sel scr entries h]
      exact normScroll_fixed sel scr (h - 5) h0 h1 h2

/-- Witness for `C3_amended_intents_and_scrolloff` at the delete key with
a scroll-off-consistent state. -/
theorem C3_amended_witness :
    (handle_input 68 5 0 (List.replicate 20 entryA) 30).selected = 5 ∧
    (handle_input 68 5 0 (List.replicate 20 entryA) 30).delete_flag = true ∧
    (handle_input 68 5 0 (List.replicate 20 entryA) 30).scroll = 0 :=
  ⟨(C3_amended_intents_and_scrolloff 68 5 0 (List.replicate 20 entryA) 30).2.1.1,
   (C3_amended_intents_and_scrolloff 68 5 0 (List.replicate 20 entryA) 30).2.1.2.1,
   (C3_amended_intents_and_scrolloff 68 5 0 (List.replicate 20 entryA) 30).2.2.2 (by decide)
     (by decide) (by decide) (Or.inr (Or.inl rfl))⟩

lemma string_take8_bound (s : String) : ("Err: " ++ s.take 8).length ≤ 13 := by
  rw [String.length_append, String.take_eq]
  have : (String.mk (List.take 8 s.data)).length ≤ 8 := by
    simp only [String.length, List.length_take]
    omega
  simp only [String.length, List.length_cons, List.length_nil] at this ⊢
  omega

lemma mem_markedIdxs (entries : List NodeModulesEntry) (i : Nat) :
    i ∈ (List.range entries.length).filter (fun i =>
        match entries.get? i with
        | some e => e.marked && !e.deleted
        | none => false) ↔
      ∃ h : i < entries.length, entries[i].marked = true ∧ entries[i].deleted = false := by
  simp only [List.mem_filter, List.mem_range, List.get?_eq_getElem?]
  constructor
  · rintro ⟨h, hp⟩
    rw [List.getElem?_eq_getElem h] at hp
    simp only [Bool.and_eq_true, Bool.not_eq_true'] at hp
    exact ⟨h, hp⟩
  · rintro ⟨h, hm, hd⟩
    refine ⟨h, ?_⟩
    rw [List.getElem?_eq_getElem h]
    simp [hm, hd]

lemma targetIdxs_deleted_false (entries : List NodeModulesEntry) (sel i : Nat)
    (hi : i ∈ targetIdxs entries sel) :
    ∃ h : i < entries.length, entries[i].deleted = false := by
  simp only [targetIdxs] at hi
  split_ifs at hi with hEmpty
  · cases hq : entries.get? sel with
    | none => rw [hq] at hi; exact absurd hi (List.not_mem_nil i)
    | some cur =>
      rw [hq] at hi
      dsimp only at hi
      rw [List.get?_eq_getElem?, List.getElem?_eq_some_iff] at hq
      obtain ⟨hlt, hcur⟩ := hq
      split_ifs at hi with hdel
      · rw [List.mem_singleton] at hi
        subst hi
        exact ⟨hlt, by rw [hcur]; exact hdel⟩
      · exact absurd hi (List.not_mem_nil i)
  · exact ((mem_markedIdxs entries i).mp hi).imp (fun _ h => h.2)

lemma deleteStep_no_targets (entries : List NodeModulesEntry) (sel : Nat) (ck : Int)
    (res : Nat → Option String) (h : targetIdxs entries sel = []) :
    deleteStep entries sel ck res = entries := by
  simp only [deleteStep]
  rw [if_pos (by simpa [List.isEmpty_iff] using h)]

lemma deleteStep_not_confirmed (entries : List NodeModulesEntry) (sel : Nat) (ck : Int)
    (res : Nat → Option String) (h1 : ck ≠ 89) (h2 : ck ≠ 121) :
    deleteStep entries sel ck res = entries := by
  simp only [deleteStep]
  split_ifs with hA hB
  · rfl
  · exact absurd hB (by tauto)
  · rfl

lemma deleteStep_getElem? (entries : List NodeModulesEntry) (sel : Nat) (ck : Int)
    (res : Nat → Option String) (hck : ck = 89 ∨ ck = 121) (i : Nat)
    (hi : i < entries.length) (ht : i ∈ targetIdxs entries sel) :
    (deleteStep entries sel ck res)[i]? =
      some (match res i with
       | some err => { entries[i] with status := "Err: " ++ err.take 8, marked := false }
       | none => { entries[i] with
                     status := "Deleted", deleted := true,
                     size_kb := 0, size_human := "—", marked := false }) := by
  have hne : ¬(targetIdxs entries sel).isEmpty = true := by
    simp only [List.isEmpty_iff]
    exact List.ne_nil_of_mem ht
  simp only [deleteStep]
  rw [if_neg hne, if_pos hck]
  rw [List.getElem?_mapIdx, List.getElem?_mapIdx, List.getElem?_eq_getElem hi]
  simp only [Option.map_some']
  rw [if_pos ht, if_pos ht]

lemma deleteStep_getElem (entries : List NodeModulesEntry) (sel : Nat) (ck : Int)
    (res : Nat → Option String) (hck : ck = 89 ∨ ck = 121) (i : Nat)
    (hi : i < entries.length) (ht : i ∈ targetIdxs entries sel)
    (h' : i < (deleteStep entries sel ck res).length) :
    (deleteStep entries sel ck res)[i] =
      (match res i with
       | some err => { entries[i] with status := "Err: " ++ err.take 8, marked := false }
       | none => { entries[i] with
                     status := "Deleted", deleted := true,
                     size_kb := 0, size_human := "—", marked := false }) := by
  have h2 := deleteStep_getElem? entries sel ck res hck i hi ht
  rw [List.getElem?_eq_some_iff] at h2
  obtain ⟨hlt, heq⟩ := h2
  exact heq

lemma mkEntry_entryInv (a r : List String) (n : Nat) : entryInv (mkEntry a r n) := by
  constructor
  · intro _; rfl
  · intro _ hz
    show format_size n = "0 B"
    have : n = 0 := hz
    rw [this]
    decide

lemma entryInv_markStep (s : UIState) (h : Int)
    (hs : ∀ e ∈ s.entries, entryInv e) :
    ∀ e ∈ (markStep s h).entries, entryInv e := by
  intro e he
  have hent : (markStep s h).entries =
      s.entries.mapIdx (fun j e =>
        if j = pyIdx s.entries.length s.selected ∧ e.deleted = false then
          { e with marked := !e.marked } else e) := by
    simp only [markStep]
    split_ifs <;> rfl
  rw [hent] at he
  rw [List.mem_mapIdx] at he
  obtain ⟨i, hlt, heq⟩ := he
  subst heq
  split_ifs with hc
  · obtain ⟨-, hdel⟩ := hc
    obtain ⟨-, h2⟩ := hs s.entries[i] (List.getElem_mem hlt)
    exact ⟨fun _ => hdel, fun _ hz => h2 hdel hz⟩
  · exact hs s.entries[i] (List.getElem_mem hlt)

lemma deleteStep_getElem?_untouched (entries : List NodeModulesEntry) (sel : Nat) (ck : Int)
    (res : Nat → Option String) (i : Nat) (hi : i < entries.length)
    (ht : i ∉ targetIdxs entries sel) :
    (deleteStep entries sel ck res)[i]? = some entries[i] := by
  simp only [deleteStep]
  split_ifs with h1 h2
  · rw [List.getElem?_eq_getElem hi]
  · rw [List.getElem?_mapIdx, List.getElem?_mapIdx, List.getElem?_eq_getElem hi]
    simp only [Option.map_some']
    rw [if_neg ht, if_neg ht]
  · rw [List.getElem?_eq_getElem hi]

lemma entryInv_deleteStep (entries : List NodeModulesEntry) (sel : Nat) (ck : Int)
    (res : Nat → Option String) (hs : ∀ e ∈ entries, entryInv e) :
    ∀ e ∈ deleteStep entries sel ck res, entryInv e := by
  intro e he
  by_cases hck : ck = 89 ∨ ck = 121
  · by_cases hT : targetIdxs entries sel = []
    · rw [deleteStep_no_targets entries sel ck res hT] at he
      exact hs e he
    · rw [List.mem_iff_getElem] at he
      obtain ⟨i, hlt, heq⟩ := he
      have hi : i < entries.length := by
        rw [deleteStep_length] at hlt
        exact hlt
      by_cases ht : i ∈ targetIdxs entries sel
      · rw [deleteStep_getElem entries sel ck res hck i hi ht hlt] at heq
        subst heq
        cases hres : res i with
        | some err =>
          simp only [hres]
          obtain ⟨-, h2⟩ := hs entries[i] (List.getElem_mem hi)
          exact ⟨fun hm => absurd hm (by simp), fun hd hz => h2 hd hz⟩
        | none =>
          simp only [hres]
          exact ⟨fun hm => absurd hm (by simp), fun hd => absurd hd (by simp)⟩
      · have h2 := deleteStep_getElem?_untouched entries sel ck res i hi ht
        rw [List.getElem?_eq_some_iff] at h2
        obtain ⟨hlt2, heq2⟩ := h2
        rw [heq2] at heq
        subst heq
        exact hs entries[i] (List.getElem_mem hi)
  · rw [deleteStep_not_confirmed entries sel ck res (by tauto) (by tauto)] at he
    exact hs e he

lemma afterInput_entryInv (s₂ : UIState) (r : InputResult) (c : LoopCycle)
    (h : ∀ e ∈ s₂.entries, entryInv e) :
    ∀ e ∈ (afterInput s₂ r c).entries, entryInv e := by
  simp only [afterInput]
  split_ifs with hq hm hd hd <;> (try dsimp only)
  · exact h
  · intro e he
    refine entryInv_deleteStep _ _ _ _ ?_ e he
    exact entryInv_markStep _ _ h
  · exact entryInv_markStep _ _ h
  · intro e he
    refine entryInv_deleteStep _ _ _ _ ?_ e he
    exact h
  · exact h

lemma entryInv_cycleStep (s : UIState) (c : LoopCycle)
    (hs : ∀ e ∈ s.entries, entryInv e) :
    ∀ e ∈ (cycleStep s c).entries, entryInv e := by
  have h2 : ∀ e ∈ (clampStep (drainStep s c.drained) c.height).entries, entryInv e := by
    rw [clampStep_entries]
    intro e he
    simp only [drainStep] at he
    rcases List.mem_append.mp he with h | h
    · exact hs e h
    · rw [List.mem_map] at h
      obtain ⟨d, -, hd⟩ := h
      rw [← hd]
      exact mkEntry_entryInv _ _ _
  unfold cycleStep
  cases c.key with
  | none => exact h2
  | some k => exact afterInput_entryInv _ _ _ h2

lemma reach_entryInv (cs : List LoopCycle) : ∀ e ∈ (reach cs).entries, entryInv e := by
  suffices H : ∀ (cs : List LoopCycle) (s : UIState), (∀ e ∈ s.entries, entryInv e) →
      ∀ e ∈ (cs.foldl cycleStep s).entries, entryInv e by
    exact H cs ⟨[], 0, 0⟩ (by intro e he; exact absurd he (List.not_mem_nil e))
  intro cs
  induction cs with
  | nil => intro s hs; exact hs
  | cons c cs ih =>
    intro s hs
    exact ih (cycleStep s c) (entryInv_cycleStep s c hs)

/-- C2 (amended): for every reachable record that is not deleted,
`size_kb = 0` implies `size_human = "0 B"`.  (A successfully deleted
record has `size_kb = 0` but label `"—"`, refuting the unrestricted
claim — see the counterexample.) -/
theorem C2_amended_zero_label (cs : List LoopCycle) :
    ∀ e ∈ (reach cs).entries, e.deleted = false → e.size_kb = 0 → e.size_human = "0 B" :=
  fun e he => (reach_entryInv cs e he).2

/-- Witness for `C2_amended_zero_label`: a drained record with measured
size 0 is reachable and carries the `"0 B"` label. -/
theorem C2_amended_zero_label_witness :
    (mkEntry ["r", "a", "node_modules"] ["a"] 0).size_human = "0 B" :=
  C2_amended_zero_label [cycZero] (mkEntry ["r", "a", "node_modules"] ["a"] 0)
    (by decide) (by decide) (by decide)

/-- C5: `marked` is never true on a deleted record in any reachable state;
and after a confirmed deletion, a succeeded target has `deleted = true`,
`size_kb = 0`, `marked = false`, while a failed target has
`deleted = false` and a status carrying a bounded excerpt
(`"Err: " ++ error[:8]`, at most 13 characters) of the failure reason. -/
theorem C5_deletion_postconditions :
    (∀ cs : List LoopCycle, ∀ e ∈ (reach cs).entries, e.marked = true → e.deleted = false) ∧
    (∀ (entries : List NodeModulesEntry) (sel : Nat) (ck : Int) (res : Nat → Option String),
      (ck = 89 ∨ ck = 121) →
      ∀ i ∈ targetIdxs entries sel, ∀ h' : i < (deleteStep entries sel ck res).length,
        (res i = none → (deleteStep entries sel ck res)[i].deleted = true ∧
          (deleteStep entries sel ck res)[i].size_kb = 0 ∧
          (deleteStep entries sel ck res)[i].marked = false) ∧
        (∀ err, res i = some err → (deleteStep entries sel ck res)[i].deleted = false ∧
          (deleteStep entries sel ck res)[i].status = "Err: " ++ err.take 8 ∧
          (deleteStep entries sel ck res)[i].status.length ≤ 13)) := by
  constructor
  · exact fun cs e he => (reach_entryInv cs e he).1
  · intro entries sel ck res hck i ht h'
    obtain ⟨hi, hdel⟩ := targetIdxs_deleted_false entries sel i ht
    have hchar := deleteStep_getElem entries sel ck res hck i hi ht h'
    constructor
    · intro hres
      rw [hchar, hres]
      exact ⟨rfl, rfl, rfl⟩
    · intro err hres
      rw [hchar, hres]
      exact ⟨hdel, rfl, string_take8_bound err⟩

/-- Witness for `C5_deletion_postconditions` on a one-record batch. -/
theorem C5_deletion_postconditions_witness :
    ((deleteStep [entryA] 0 89 (fun _ => none)).get ⟨0, by decide⟩).deleted = true :=
  ((C5_deletion_postconditions.2 [entryA] 0 89 (fun _ => none) (Or.inl rfl) 0
    (by decide) (by decide)).1 rfl).1

/-- C7: the delete target set is exactly the marked-and-not-deleted
records when any exist; otherwise it is the selected record provided it is
not deleted, and empty when it is; an empty target set is a no-op; and
any confirmation key other than `Y`/`y` leaves every record unchanged. -/
theorem C7_delete_targeting :
    ∀ (entries : List NodeModulesEntry) (sel : Nat) (ck : Int) (res : Nat → Option String),
      ((∃ j, ∃ hj : j < entries.length, entries[j].marked = true ∧ entries[j].deleted = false) →
        ∀ i, i ∈ targetIdxs entries sel ↔
          ∃ hi : i < entries.length, entries[i].marked = true ∧ entries[i].deleted = false) ∧
      ((∀ j, ∀ hj : j < entries.length,
          ¬(entries[j].marked = true ∧ entries[j].deleted = false)) →
        ∀ hsel : sel < entries.length,
          (entries[sel].deleted = false → targetIdxs entries sel = [sel]) ∧
          (entries[sel].deleted = true → targetIdxs entries sel = [])) ∧
      (targetIdxs entries sel = [] → deleteStep entries sel ck res = entries) ∧
      (ck ≠ 89 → ck ≠ 121 → deleteStep entries sel ck res = entries) := by
  intro entries sel ck res
  refine ⟨?_, ?_, deleteStep_no_targets entries sel ck res,
    deleteStep_not_confirmed entries sel ck res⟩
  · intro hex i
    obtain ⟨j, hj, hmj⟩ := hex
    have hjmem : j ∈ (List.range entries.length).filter (fun i =>
        match entries.get? i with
        | some e => e.marked && !e.deleted
        | none => false) := (mem_markedIdxs entries j).mpr ⟨hj, hmj⟩
    have hne : ¬((List.range entries.length).filter (fun i =>
        match entries.get? i with
        | some e => e.marked && !e.deleted
        | none => false)).isEmpty = true := by
      simp only [List.isEmpty_iff]
      exact List.ne_nil_of_mem hjmem
    simp only [targetIdxs]
    rw [if_neg hne]
    exact mem_markedIdxs entries i
  · intro hno hsel
    have hM : (List.range entries.length).filter (fun i =>
        match entries.get? i with
        | some e => e.marked && !e.deleted
        | none => false) = [] := by
      rw [List.filter_eq_nil]
      intro a ha
      rw [List.mem_range] at ha
      have hcontra := hno a ha
      simp only [List.get?_eq_getElem?, List.getElem?_eq_getElem ha]
      simp only [Bool.and_eq_true, Bool.not_eq_true', not_and] at hcontra ⊢
      intro hm
      exact fun hd => (hcontra hm) hd
    constructor
    · intro hd
      simp only [targetIdxs]
      rw [if_pos (show (List.filter (fun i =>
          match entries.get? i with
          | some e => e.marked && !e.deleted
          | none => false) (List.range entries.length)).isEmpty = true by rw [hM]; rfl)]
      rw [List.get?_eq_getElem?, List.getElem?_eq_getElem hsel]
      dsimp only
      rw [if_pos hd]
    · intro hd
      simp only [targetIdxs]
      rw [if_pos (show (List.filter (fun i =>
          match entries.get? i with
          | some e => e.marked && !e.deleted
          | none => false) (List.range entries.length)).isEmpty = true by rw [hM]; rfl)]
      rw [List.get?_eq_getElem?, List.getElem?_eq_getElem hsel]
      dsimp only
      rw [if_neg (by simp [hd])]

/-- Witness for `C7_delete_targeting`: a non-affirmative confirmation key
is a no-op, and the unmarked selected record is the fallback target. -/
theorem C7_delete_targeting_witness :
    deleteStep [entryA] 0 0 (fun _ => none) = [entryA] ∧
    targetIdxs [entryA] 0 = [0] :=
  ⟨(C7_delete_targeting [entryA] 0 0 (fun _ => none)).2.2.2 (by decide) (by decide),
   ((C7_delete_targeting [entryA] 0 0 (fun _ => none)).2.1 (by decide) (by decide)).1 (by decide)⟩


lemma get?_append_cons (l : List String) (a : String) (r : List String) :
    (l ++ a :: r).get? l.length = some a := by
  induction l with
  | nil => rfl
  | cons x xs ih => simpa using ih

lemma find_node_modules_shape (path : List String) (t : FSTree) :
    ∀ p ∈ find_node_modules path t, ∃ s, p = path ++ s ++ ["node_modules"] := by
  induction path, t using find_node_modules.induct with
  | _ path name children remaining ih =>
    intro p hp
    rw [find_node_modules] at hp
    rcases List.mem_append.mp hp with h | h
    · split_ifs at h with hf
      · rw [List.mem_singleton] at h
        exact ⟨[], by simpa using h⟩
      · exact absurd h (List.not_mem_nil p)
    · rw [List.mem_flatMap] at h
      obtain ⟨c, hc, hpc⟩ := h
      obtain ⟨s, hs⟩ := ih c p hpc
      refine ⟨c.1.name :: s, ?_⟩
      rw [hs]
      simp

lemma mem_sub_get? (path : List String) (a : String) (t : FSTree) (p : List String)
    (hp : p ∈ find_node_modules (path ++ [a]) t) : p.get? path.length = some a := by
  obtain ⟨s, hs⟩ := find_node_modules_shape (path ++ [a]) t p hp
  rw [hs, show (path ++ [a]) ++ s ++ ["node_modules"] =
    path ++ a :: (s ++ ["node_modules"]) by simp]
  exact get?_append_cons path a _

lemma mem_sub_length (path : List String) (a : String) (t : FSTree) (p : List String)
    (hp : p ∈ find_node_modules (path ++ [a]) t) : path.length + 2 ≤ p.length := by
  obtain ⟨s, hs⟩ := find_node_modules_shape (path ++ [a]) t p hp
  rw [hs]
  simp only [List.length_append, List.length_cons, List.length_singleton]
  omega

lemma wfb_parts (name : String) (children : List FSTree)
    (hwf : FSTree.wfb (.dir name children) = true) :
    (children.map FSTree.name).Nodup ∧ ∀ c ∈ children, FSTree.wfb c = true := by
  rw [FSTree.wfb] at hwf
  simp only [Bool.and_eq_true, decide_eq_true_eq, List.all_eq_true] at hwf
  refine ⟨hwf.1, fun c hc => ?_⟩
  exact hwf.2 ⟨c, hc⟩ (List.mem_attach _ _)

lemma remaining_names_nodup (children : List FSTree)
    (h : (children.map FSTree.name).Nodup) :
    ((children.eraseP (fun c => c.name == "node_modules")).map FSTree.name).Nodup :=
  List.Nodup.sublist ((List.eraseP_sublist children).map FSTree.name) h

lemma eraseP_name_ne (children : List FSTree)
    (hnodup : (children.map FSTree.name).Nodup) :
    ∀ c ∈ children.eraseP (fun c => c.name == "node_modules"),
      c.name ≠ "node_modules" := by
  intro c hc hname
  by_cases hex : ∃ a ∈ children, a.name = "node_modules"
  · obtain ⟨a, ha, hna⟩ := hex
    obtain ⟨a', l₁, l₂, hl₁, hpa', hsplit, herase⟩ :=
      @List.exists_of_eraseP _ (fun c => c.name == "node_modules") children a ha (by simp [hna])
    rw [herase] at hc
    rcases List.mem_append.mp hc with h | h
    · exact hl₁ c h (by rw [hname]; rfl)
    · have hna' : a'.name = "node_modules" := by simpa using hpa'
      rw [hsplit] at hnodup
      simp only [List.map_append, List.map_cons] at hnodup
      have hthis := (List.nodup_append.mp hnodup).2.1
      rw [List.nodup_cons] at hthis
      have hmem : c.name ∈ l₂.map FSTree.name := List.mem_map_of_mem _ h
      rw [hname, ← hna'] at hmem
      exact hthis.1 hmem
  · push_neg at hex
    rw [List.eraseP_of_forall_not (fun a ha => by simp [hex a ha])] at hc
    exact hex c hc hname

lemma find_node_modules_shape_wf (path : List String) (t : FSTree) :
    t.wfb = true → ∀ p ∈ find_node_modules path t,
      ∃ s, p = path ++ s ++ ["node_modules"] ∧ "node_modules" ∉ s := by
  induction path, t using find_node_modules.induct with
  | _ path name children remaining ih =>
    intro hwf p hp
    obtain ⟨hnodup, hall⟩ := wfb_parts name children hwf
    rw [find_node_modules] at hp
    rcases List.mem_append.mp hp with h | h
    · split_ifs at h with hf
      · rw [List.mem_singleton] at h
        exact ⟨[], by simpa using h, List.not_mem_nil _⟩
      · exact absurd h (List.not_mem_nil p)
    · rw [List.mem_flatMap] at h
      obtain ⟨c, hc, hpc⟩ := h
      have hcr : c.1 ∈ remaining := c.2
      have hcc : c.1 ∈ children := (List.eraseP_sublist children).mem hcr
      obtain ⟨s, hs, hnm⟩ := ih c (hall c.1 hcc) p hpc
      refine ⟨c.1.name :: s, ?_, ?_⟩
      · rw [hs]; simp
      · intro hmem
        rcases List.mem_cons.mp hmem with h1 | h1
        · exact eraseP_name_ne children hnodup c.1 hcr h1.symm
        · exact hnm h1

lemma find_node_modules_nodup (path : List String) (t : FSTree) :
    t.wfb = true → (find_node_modules path t).Nodup := by
  induction path, t using find_node_modules.induct with
  | _ path name children remaining ih =>
    intro hwf
    obtain ⟨hnodup, hall⟩ := wfb_parts name children hwf
    rw [find_node_modules]
    rw [List.nodup_append]
    refine ⟨?_, ?_, ?_⟩
    · split_ifs <;> simp
    · rw [List.nodup_flatMap]
      constructor
      · intro c hc
        exact ih c (hall c.1 ((List.eraseP_sublist children).mem c.2))
      · have hpw : List.Pairwise (fun c c' : FSTree => c.name ≠ c'.name) remaining :=
          List.pairwise_map.mp (remaining_names_nodup children hnodup)
        unfold List.attach List.attachWith
        rw [List.pairwise_pmap]
        refine List.Pairwise.imp ?_ hpw
        intro a b hab h₁ h₂
        intro p hpa hpb
        have g1 := mem_sub_get? path a.name a p hpa
        have g2 := mem_sub_get? path b.name b p hpb
        rw [g1] at g2
        exact hab (Option.some.inj g2)
    · intro p hp hq
      split_ifs at hp with hf
      · rw [List.mem_singleton] at hp
        subst hp
        rw [List.mem_flatMap] at hq
        obtain ⟨c, hc, hpc⟩ := hq
        have hlen := mem_sub_length path c.1.name c.1 _ hpc
        simp only [List.length_append, List.length_singleton] at hlen
        omega
      · exact absurd hp (List.not_mem_nil _)

lemma commonPrefixLen_append (root s : List String) :
    commonPrefixLen (root ++ s) root = root.length := by
  induction root with
  | nil =>
    cases s <;> rfl
  | cons a as ih =>
    show (if a = a then 1 + commonPrefixLen (as ++ s) as else 0) = (a :: as).length
    rw [if_pos rfl, ih]
    simp [Nat.add_comm]

lemma relpath_append (root s : List String) :
    relpath (root ++ s) root = if s = [] then ["."] else s := by
  unfold relpath
  rw [commonPrefixLen_append]
  simp [List.drop_left]

lemma find_node_modules_eq (path : List String) (n : String) (children : List FSTree) :
    find_node_modules path (.dir n children) =
      (if children.any (fun c => c.name == "node_modules")
       then [path ++ ["node_modules"]] else []) ++
        (children.eraseP (fun c => c.name == "node_modules")).flatMap
          (fun c => find_node_modules (path ++ [c.name]) c) := by
  rw [find_node_modules]
  congr 1
  conv_rhs => rw [← List.attach_map_subtype_val
    (children.eraseP (fun c => c.name == "node_modules"))]
  rw [List.flatMap_map]

/-- C8: every record built by `measure_and_enqueue` for a walk-discovered
target displays `relpath(dirname(abs_path), root)` — the project directory
relative to the scan root — and that is never the relative path of the
target itself. -/
theorem C8_display_path_is_parent (root : List String) (t : FSTree) :
    ∀ p ∈ find_node_modules root t, ∀ size_kb : Nat,
      (measure_and_enqueue root p size_kb).rel_path = relpath (dirname p) root ∧
      (measure_and_enqueue root p size_kb).rel_path ≠ relpath p root := by
  intro p hp size_kb
  obtain ⟨s, hs⟩ := find_node_modules_shape root t p hp
  refine ⟨rfl, ?_⟩
  show relpath (dirname p) root ≠ relpath p root
  subst hs
  rw [show dirname (root ++ s ++ ["node_modules"]) = root ++ s by
        unfold dirname
        exact List.dropLast_concat]
  rw [relpath_append root s]
  rw [show root ++ s ++ ["node_modules"] = root ++ (s ++ ["node_modules"]) from
        List.append_assoc root s ["node_modules"]]
  rw [relpath_append root (s ++ ["node_modules"])]
  rw [if_neg (show ¬(s ++ ["node_modules"] = []) by simp)]
  by_cases he : s = []
  · subst he
    decide
  · rw [if_neg he]
    intro hcontra
    have hlen := congrArg List.length hcontra
    simp at hlen

/-- Witness for `C8_display_path_is_parent` on a concrete tree. -/
theorem C8_display_path_is_parent_witness :
    (measure_and_enqueue ["root"] ["root", "a", "node_modules"] 7).rel_path ≠
      relpath ["root", "a", "node_modules"] ["root"] :=
  (C8_display_path_is_parent ["root"] exTree ["root", "a", "node_modules"]
    (by simp [exTree, find_node_modules_eq, FSTree.name, List.eraseP]) 7).2

/-- C9: on a well-formed tree (sibling names distinct, as real directory
listings are) the walk emits each absolute target path at most once, and
no emitted target lies strictly inside another emitted target (prefix
order): once a `node_modules` directory is found the walk does not descend
into it. -/
theorem C9_walk_unique_and_no_nesting (root : List String) (t : FSTree)
    (hwf : t.wfb = true) :
    (find_node_modules root t).Nodup ∧
    ∀ p ∈ find_node_modules root t, ∀ q ∈ find_node_modules root t,
      p <+: q → p = q := by
  refine ⟨find_node_modules_nodup root t hwf, ?_⟩
  intro p hp q hq hpre
  obtain ⟨s, hs, hnms⟩ := find_node_modules_shape_wf root t hwf p hp
  obtain ⟨s', hs', hnms'⟩ := find_node_modules_shape_wf root t hwf q hq
  obtain ⟨r, hr⟩ := hpre
  subst hs hs'
  rcases List.eq_nil_or_concat r with hrnil | ⟨r₀, x, hrc⟩
  · rw [hrnil, List.append_nil] at hr
    exact hr
  · exfalso
    have hr2 : s ++ "node_modules" :: r = s' ++ ["node_modules"] := by
      have h3 := hr
      simp only [List.append_assoc, List.singleton_append, List.cons_append] at h3
      exact List.append_cancel_left h3
    have hrne : r ≠ [] := by
      simp [hrc]
    have hlen := congrArg List.length hr2
    simp only [List.length_append, List.length_cons, List.length_nil] at hlen
    have hlt : s.length < s'.length := by
      have hpos : 0 < r.length := List.length_pos.mpr hrne
      omega
    have g1 : (s ++ "node_modules" :: r).get? s.length = some "node_modules" :=
      get?_append_cons s _ r
    rw [hr2] at g1
    rw [List.get?_append hlt] at g1
    exact hnms' (List.get?_mem g1)

lemma wfb_iff (n : String) (children : List FSTree) :
    FSTree.wfb (.dir n children) = true ↔
      ((children.map FSTree.name).Nodup ∧ ∀ c ∈ children, FSTree.wfb c = true) := by
  rw [FSTree.wfb]
  simp only [Bool.and_eq_true, decide_eq_true_eq, List.all_eq_true]
  constructor
  · rintro ⟨h1, h2⟩
    exact ⟨h1, fun c hc => h2 ⟨c, hc⟩ (List.mem_attach _ _)⟩
  · rintro ⟨h1, h2⟩
    exact ⟨h1, fun c _ => h2 c.1 c.2⟩

/-- Witness for `C9_walk_unique_and_no_nesting` on a concrete tree with a
nested target. -/
theorem C9_walk_unique_and_no_nesting_witness :
    (find_node_modules ["root"] exTree).Nodup :=
  (C9_walk_unique_and_no_nesting ["root"] exTree
    (by simp +decide [exTree, wfb_iff, FSTree.name])).1
